import Mathlib

set_option maxHeartbeats 1000000

/-!
Shallow embedding of the reconciliation core of `sync_to_ad.py`:
login-name assignment, department-path resolution, two-tier matching,
plan splitting, snapshot integrity gating and the OU diff.
-/

/-- One row of the source (Feishu) roster CSV, as read by `split_users_for_sync`. -/
structure FeishuUser where
  pinyin : String
  userId : String
  unionId : String
  uuid : String
  employeeNo : String
  displayName : String
  email : String
  deptId : String
  deriving DecidableEq, Repr

/-- An existing AD account as kept by `get_existing_ad_users`
(`SamAccountName`, `DisplayName`, `EmailAddress`). -/
structure AdUserInfo where
  samAccountName : String
  displayName : String
  emailAddress : String
  deriving DecidableEq, Repr

/-- A raw row of the AD user export, before it is keyed into the two dictionaries. -/
structure AdCsvRow where
  samAccountName : String
  employeeNumber : String
  displayName : String
  emailAddress : String
  deriving DecidableEq, Repr

/-- Insert-or-overwrite for a Python dict modelled as an association list
(keyed assignment `m[k] = v`). -/
def dictInsert {α : Type} (m : List (String × α)) (k : String) (v : α) : List (String × α) :=
  if m.any (fun p => p.1 == k) then
    m.map (fun p => if p.1 == k then (k, v) else p)
  else m ++ [(k, v)]

/-- Python `str.strip()`: drop leading and trailing whitespace (structural
char-level model). -/
def pyStrip (s : String) : String :=
  String.mk ((((s.data.dropWhile Char.isWhitespace).reverse).dropWhile
    Char.isWhitespace).reverse)

/-- Keying step of `get_existing_ad_users`: a row with a non-empty (stripped)
`EmployeeNumber` goes into the Union-ID dictionary, the rest into the
`SamAccountName` dictionary. -/
def userDictStep (acc : List (String × AdUserInfo) × List (String × AdUserInfo))
    (row : AdCsvRow) : List (String × AdUserInfo) × List (String × AdUserInfo) :=
  let en := pyStrip row.employeeNumber
  let info : AdUserInfo := ⟨row.samAccountName, row.displayName, row.emailAddress⟩
  if en ≠ "" then (dictInsert acc.1 en info, acc.2)
  else (acc.1, dictInsert acc.2 row.samAccountName info)

/-- Keying loop of `get_existing_ad_users` over all parsed rows. -/
def buildUserDicts (rows : List AdCsvRow) :
    List (String × AdUserInfo) × List (String × AdUserInfo) :=
  rows.foldl userDictStep ([], [])

/-- Outcome of `get_existing_ad_users`, with `Except.error` standing for the
fatal `sys.exit(1)` paths. `downloadOk` tells whether the bulk export could be
downloaded, `rows` are the records parsed from it and `liveCount` is the
independently queried number of enabled AD users. -/
def getExistingAdUsers (downloadOk : Bool) (rows : List AdCsvRow) (liveCount : Nat) :
    Except Unit (List (String × AdUserInfo) × List (String × AdUserInfo)) :=
  if downloadOk then
    let dicts := buildUserDicts rows
    if liveCount = dicts.1.length + dicts.2.length then Except.ok dicts
    else Except.error ()
  else
    if liveCount = 0 then Except.ok ([], []) else Except.error ()

/-- Character-level split on the separator, with Python `str.split` semantics
for a single-character separator (`""` gives `[""]`, separators at the ends
give empty parts). -/
def splitDotChars : List Char → List (List Char)
  | [] => [[]]
  | c :: rest =>
    if c = '.' then [] :: splitDotChars rest
    else
      match splitDotChars rest with
      | [] => [[c]]
      | h :: t => (c :: h) :: t

/-- The `pinyin.split` on the dot separator from the source. -/
def splitDot (s : String) : List String :=
  (splitDotChars s.data).map (fun l => String.mk l)

/-- Lexicographic string comparison by code point, the order Python uses when
sorting strings (structural char-level model). -/
def lexLe : List Char → List Char → Bool
  | [], _ => true
  | _ :: _, [] => false
  | a :: as, b :: bs => if a < b then true else if a = b then lexLe as bs else false

/-- Ordering used by the sort on the employee-number column: ascending by
employee number (string order as provided). -/
def empLE (a b : FeishuUser) : Prop :=
  lexLe a.employeeNo.data b.employeeNo.data = true

instance : DecidableRel empLE := fun a b =>
  inferInstanceAs (Decidable (lexLe a.employeeNo.data b.employeeNo.data = true))

instance : IsTotal FeishuUser empLE :=
  ⟨fun a b => by
    show lexLe a.employeeNo.data b.employeeNo.data = true ∨
      lexLe b.employeeNo.data a.employeeNo.data = true
    generalize a.employeeNo.data = x
    generalize b.employeeNo.data = y
    induction x generalizing y with
    | nil => exact Or.inl rfl
    | cons c cs ih =>
      cases y with
      | nil => exact Or.inr rfl
      | cons d ds =>
        rcases lt_trichotomy c d with h | h | h
        · left; simp [lexLe, h]
        · subst h
          rcases ih ds with h2 | h2
          · left; simp [lexLe, h2]
          · right; simp [lexLe, h2]
        · right; simp [lexLe, h]⟩

instance : IsTrans FeishuUser empLE :=
  ⟨fun a b c hab hbc => by
    show lexLe a.employeeNo.data c.employeeNo.data = true
    have H : ∀ (x y z : List Char), lexLe x y = true → lexLe y z = true →
        lexLe x z = true := by
      intro x
      induction x with
      | nil => intro y z h1 h2; rfl
      | cons cx xs ih =>
        intro y z hxy hyz
        cases y with
        | nil => simp [lexLe] at hxy
        | cons cy ys =>
          cases z with
          | nil => simp [lexLe] at hyz
          | cons cz zs =>
            by_cases h1 : cx < cy
            · by_cases h2 : cy < cz
              · have h3 : cx < cz := lt_trans h1 h2
                simp [lexLe, h3]
              · rw [lexLe, if_neg h2] at hyz
                by_cases h4 : cy = cz
                · subst h4
                  simp [lexLe, h1]
                · rw [if_neg h4] at hyz
                  exact absurd hyz (by simp)
            · rw [lexLe, if_neg h1] at hxy
              by_cases h5 : cx = cy
              · rw [if_pos h5] at hxy
                subst h5
                rw [lexLe] at hyz ⊢
                by_cases h2 : cx < cz
                · rw [if_pos h2]
                · rw [if_neg h2] at hyz ⊢
                  by_cases h4 : cx = cz
                  · rw [if_pos h4] at hyz ⊢
                    exact ih ys zs hxy hyz
                  · rw [if_neg h4] at hyz
                    exact absurd hyz (by simp)
              · rw [if_neg h5] at hxy
                exact absurd hxy (by simp)
    exact H _ _ _ hab hbc⟩

/-- The stable ascending sort by employee number used for a duplicated pinyin group. -/
def sortByEmpNo (l : List FeishuUser) : List FeishuUser := List.insertionSort empLE l

/-- Login-name assignment for one roster row (`split_users_for_sync`, collision
handling): an override wins; otherwise a pinyin shared by several rows is
disambiguated by the row's 0-based rank in the group sorted by employee number. -/
def assignSam (pinyinExceptions : List (String × String)) (roster : List FeishuUser)
    (row : FeishuUser) : String :=
  let pinyin := row.pinyin
  match pinyinExceptions.lookup pinyin with
  | some forced => forced
  | none =>
    let group := roster.filter (fun u => u.pinyin == pinyin)
    if 1 < group.length then
      match sortByEmpNo group with
      | [] => pinyin
      | first :: restSorted =>
        if row.employeeNo == first.employeeNo then pinyin
        else
          let index := (first :: restSorted).findIdx (fun u => u.employeeNo == row.employeeNo)
          match splitDot pinyin with
          | [p0, p1] => p0 ++ toString index ++ "." ++ p1
          | _ => pinyin ++ toString index
    else pinyin

/-- The disambiguated login name for the member of 0-based rank `index` in a
duplicated-pinyin group: the rank is inserted after the first part when the
token splits into exactly two parts, and appended otherwise. -/
def disambName (pinyin : String) (index : Nat) : String :=
  match splitDot pinyin with
  | [p0, p1] => p0 ++ toString index ++ "." ++ p1
  | _ => pinyin ++ toString index

/-- Two-tier match of one roster row against the AD snapshot
(`split_users_for_sync`, matching step): tier 1 by non-empty Union ID, tier 2
by the freshly assigned login name against accounts lacking a Union ID.
Returns the matched existing `SamAccountName` and which tier matched. -/
def rowMatch (existingUsers usersWithoutUnionId : List (String × AdUserInfo))
    (unionId samAccount : String) : Option (String × Bool) :=
  match (if unionId ≠ "" then existingUsers.lookup unionId else none) with
  | some adInfo => some (adInfo.samAccountName, true)
  | none =>
    match usersWithoutUnionId.lookup samAccount with
    | some _ => some (samAccount, false)
    | none => none

/-- One row of the create/update plan CSVs; `employeeId` carries the employee
number, `employeeNumber` the Union ID and `info` the UUID. -/
structure PlanEntry where
  samAccountName : String
  displayName : String
  emailAddress : String
  employeeId : String
  employeeNumber : String
  info : String
  departmentName : String
  deriving DecidableEq, Repr

/-- Result of `split_users_for_sync`. -/
structure SplitResult where
  newUsers : List PlanEntry
  updateUsers : List PlanEntry
  matchedAdUsers : List String
  matchedAdUsersNoUid : List String
  deriving DecidableEq, Repr

/-- Department path attached to a row: the department-path map consulted with
the row's department id, empty when the id is empty or unknown. -/
def rowDeptPath (deptPathMap : List (String × String)) (deptId : String) : String :=
  if deptId ≠ "" then (deptPathMap.lookup deptId).getD "" else ""

/-- Plan entry appended to `update_users` for a matched row. -/
def mkUpdateEntry (row : FeishuUser) (matchedSam deptPath : String) : PlanEntry :=
  ⟨matchedSam, row.displayName, row.email, row.employeeNo, row.unionId, row.uuid, deptPath⟩

/-- Plan entry appended to `new_users` for an unmatched row. -/
def mkNewEntry (row : FeishuUser) (samAccount deptPath : String) : PlanEntry :=
  ⟨samAccount, row.displayName, row.email, row.employeeNo, row.unionId, row.uuid, deptPath⟩

/-- Main loop of `split_users_for_sync` over the roster rows. -/
def splitUsersAux (pinyinExceptions : List (String × String)) (roster : List FeishuUser)
    (deptPathMap : List (String × String))
    (existingUsers usersWithoutUnionId : List (String × AdUserInfo)) :
    List FeishuUser → SplitResult
  | [] => ⟨[], [], [], []⟩
  | row :: rest =>
    let r := splitUsersAux pinyinExceptions roster deptPathMap existingUsers
      usersWithoutUnionId rest
    let samAccount := assignSam pinyinExceptions roster row
    let deptPath := rowDeptPath deptPathMap row.deptId
    match rowMatch existingUsers usersWithoutUnionId row.unionId samAccount with
    | some (matchedSam, viaUid) =>
      { newUsers := r.newUsers
        updateUsers := mkUpdateEntry row matchedSam deptPath :: r.updateUsers
        matchedAdUsers := if viaUid then row.unionId :: r.matchedAdUsers else r.matchedAdUsers
        matchedAdUsersNoUid :=
          if viaUid then r.matchedAdUsersNoUid else matchedSam :: r.matchedAdUsersNoUid }
    | none =>
      { r with newUsers := mkNewEntry row samAccount deptPath :: r.newUsers }

/-- The whole `split_users_for_sync` planner (pure part: the department path
map and the two account dictionaries are taken as inputs). -/
def splitUsersForSync (pinyinExceptions : List (String × String))
    (deptPathMap : List (String × String)) (roster : List FeishuUser)
    (existingUsers usersWithoutUnionId : List (String × AdUserInfo)) : SplitResult :=
  splitUsersAux pinyinExceptions roster deptPathMap existingUsers usersWithoutUnionId roster

/-- Export of AD accounts matched by no roster row (unmatched-account export
of the main program): accounts whose key was never recorded as claimed, in
dictionary order. -/
def unmatchedAdUsers (existingUsers usersWithoutUnionId : List (String × AdUserInfo))
    (matchedAdUsers matchedAdUsersNoUid : List String) : List AdUserInfo :=
  existingUsers.filterMap
    (fun p => if p.1 ∈ matchedAdUsers then none else some p.2) ++
  usersWithoutUnionId.filterMap
    (fun p => if p.1 ∈ matchedAdUsersNoUid then none else some p.2)

/-- One row of the department CSV (`dept_id`, `dept_name`, `parent_dept_id`). -/
structure DeptRow where
  deptId : String
  deptName : String
  parentDeptId : String
  deriving DecidableEq, Repr

/-- Fuel-indexed version of the recursive `build_dept_path`: the source
recursion has no cycle guard, so it is embedded with explicit fuel and
`none` marks a computation that does not finish within the given depth. -/
def buildDeptPathFuel : Nat → String → List DeptRow → Option String
  | 0, _, _ => none
  | fuel + 1, deptId, deptList =>
    if deptId = "0" then some ""
    else
      match deptList.find? (fun d => d.deptId == deptId) with
      | none => some ""
      | some dept =>
        if dept.parentDeptId = "0" then some dept.deptName
        else
          match buildDeptPathFuel fuel dept.parentDeptId deptList with
          | none => none
          | some parentPath =>
            some (if parentPath ≠ "" then parentPath ++ "\\" ++ dept.deptName
              else dept.deptName)

/-- The recursion of `build_dept_path` reaches a result at some finite depth. -/
def deptPathTerminates (deptList : List DeptRow) (deptId : String) : Prop :=
  ∃ fuel, (buildDeptPathFuel fuel deptId deptList).isSome

/-- One row of the exported OU CSV. -/
structure OuRow where
  name : String
  dn : String
  deriving DecidableEq, Repr

/-- Scope filter of `get_existing_ad_departments`: drop the base OU itself,
the excluded OU and everything nested under it (suffix match on the excluded
DN preceded by a comma). -/
def ouExcluded (baseOu excludeOu : String) (row : OuRow) : Bool :=
  row.dn == baseOu ||
    (excludeOu != "" &&
      (row.dn == excludeOu || ("," ++ excludeOu).data.isSuffixOf row.dn.data))

/-- Reading loop of `get_existing_ad_departments`: the surviving rows keyed by
DN (`existing_ous[dn] = name`). -/
def existingOuDict (rows : List OuRow) (baseOu excludeOu : String) :
    List (String × String) :=
  rows.foldl
    (fun m row => if ouExcluded baseOu excludeOu row then m else dictInsert m row.dn row.name)
    []

/-- OU diff of `sync_departments`: names present among the (scoped) existing
OUs but absent from the source department names. -/
def extraOus (rows : List OuRow) (baseOu excludeOu : String)
    (feishuDeptNames : List String) : List String :=
  let adDeptNames := ((existingOuDict rows baseOu excludeOu).map (fun p => p.2)).dedup
  adDeptNames.filter (fun n => decide (n ∉ feishuDeptNames))

/-- The example chain `Root(0) → Eng(1) → Backend(2)` from the spec. -/
def chainDeptTbl : List DeptRow := [⟨"1", "Eng", "0"⟩, ⟨"2", "Backend", "1"⟩]

/-- A one-node table whose parent link cycles back to itself. -/
def cyclicDeptTbl : List DeptRow := [⟨"1", "Loop", "1"⟩]

/-- Effective dictionary key of a parsed AD export row: the stripped
`EmployeeNumber` when non-empty (Union-ID dictionary), the `SamAccountName`
otherwise (legacy dictionary). -/
def adRowKey (row : AdCsvRow) : Sum String String :=
  if pyStrip row.employeeNumber ≠ "" then Sum.inl (pyStrip row.employeeNumber)
  else Sum.inr row.samAccountName

/-- Head of the user-sync run: fetch and verify the AD snapshot, then (only on
success) compute the split plan; a fatal integrity failure aborts the run
before any plan is computed. -/
def runUserSyncPlan (downloadOk : Bool) (rows : List AdCsvRow) (liveCount : Nat)
    (pinyinExceptions deptPathMap : List (String × String)) (roster : List FeishuUser) :
    Except Unit SplitResult :=
  match getExistingAdUsers downloadOk rows liveCount with
  | Except.error e => Except.error e
  | Except.ok dicts =>
    Except.ok (splitUsersForSync pinyinExceptions deptPathMap roster dicts.1 dicts.2)

/-- Keys of the accounts claimed while splitting the roster, in roster order:
a tier-1 claim records the Union ID (as recorded in `matched_ad_users`), a
tier-2 claim the matched login name (as recorded in the no-Union-ID set). -/
def claimedKeys (pinyinExceptions : List (String × String)) (roster : List FeishuUser)
    (eu nu : List (String × AdUserInfo)) : List (Bool × String) :=
  roster.filterMap (fun row =>
    (rowMatch eu nu row.unionId (assignSam pinyinExceptions roster row)).map
      (fun m => (m.2, if m.2 then row.unionId else m.1)))

/-- Decimal decoding of a digit-character string, used to recover the number
behind `Nat.repr` when proving the disambiguator injective. -/
def ofDigitChars (l : List Char) : Nat :=
  l.foldl (fun a c => 10 * a + (c.toNat - 48)) 0

/-! ### Department-path resolution (C6, C9, C10) -/

/-- Unfolding equation for one recursion step of `build_dept_path`. -/
lemma buildDeptPathFuel_succ (fuel : Nat) (deptId : String) (deptList : List DeptRow) :
    buildDeptPathFuel (fuel + 1) deptId deptList =
      if deptId = "0" then some ""
      else
        match deptList.find? (fun d => d.deptId == deptId) with
        | none => some ""
        | some dept =>
          if dept.parentDeptId = "0" then some dept.deptName
          else
            match buildDeptPathFuel fuel dept.parentDeptId deptList with
            | none => none
            | some parentPath =>
              some (if parentPath ≠ "" then parentPath ++ "\\" ++ dept.deptName
                else dept.deptName) := rfl

lemma buildDeptPathFuel_cyclic (n : Nat) : buildDeptPathFuel n "1" cyclicDeptTbl = none := by
  induction n with
  | zero => rfl
  | succ n ih =>
    have hstep : buildDeptPathFuel (n + 1) "1" cyclicDeptTbl =
        (match buildDeptPathFuel n "1" cyclicDeptTbl with
         | none => none
         | some parentPath =>
           some (if parentPath ≠ "" then parentPath ++ "\\" ++ "Loop" else "Loop")) := rfl
    rw [hstep, ih]

/-- C6: the root id resolves to the empty string; a node whose parent is the
root resolves to its own name; a node whose parent path resolves non-empty
resolves to the parent path joined to its own name by a backslash; an id not
found in the table resolves to the empty string; and on the chain
`Root(0) → Eng(1) → Backend(2)` the id `2` resolves to `Eng\Backend` and the
id `0` to the empty string. -/
theorem c6_dept_path_cases (deptList : List DeptRow) (fuel : Nat) (deptId : String)
    (dept : DeptRow) (parentPath : String) :
    buildDeptPathFuel (fuel + 1) "0" deptList = some "" ∧
    (deptList.find? (fun d => d.deptId == deptId) = none →
      buildDeptPathFuel (fuel + 1) deptId deptList = some "") ∧
    (deptId ≠ "0" → deptList.find? (fun d => d.deptId == deptId) = some dept →
      dept.parentDeptId = "0" →
      buildDeptPathFuel (fuel + 1) deptId deptList = some dept.deptName) ∧
    (deptId ≠ "0" → deptList.find? (fun d => d.deptId == deptId) = some dept →
      dept.parentDeptId ≠ "0" →
      buildDeptPathFuel fuel dept.parentDeptId deptList = some parentPath →
      parentPath ≠ "" →
      buildDeptPathFuel (fuel + 1) deptId deptList =
        some (parentPath ++ "\\" ++ dept.deptName)) ∧
    buildDeptPathFuel 3 "2" chainDeptTbl = some "Eng\\Backend" ∧
    buildDeptPathFuel (fuel + 1) "0" chainDeptTbl = some "" := by
  refine ⟨?_, ?_, ?_, ?_, by decide, ?_⟩
  · rw [buildDeptPathFuel_succ, if_pos rfl]
  · intro hnone
    by_cases h0 : deptId = "0"
    · subst h0; rw [buildDeptPathFuel_succ, if_pos rfl]
    · rw [buildDeptPathFuel_succ, if_neg h0, hnone]
  · intro h0 hfind hroot
    rw [buildDeptPathFuel_succ, if_neg h0, hfind]
    show (if dept.parentDeptId = "0" then some dept.deptName else _) = some dept.deptName
    rw [if_pos hroot]
  · intro h0 hfind hnotroot hparent hne
    rw [buildDeptPathFuel_succ, if_neg h0, hfind]
    show (if dept.parentDeptId = "0" then some dept.deptName
      else match buildDeptPathFuel fuel dept.parentDeptId deptList with
        | none => none
        | some parentPath =>
          some (if parentPath ≠ "" then parentPath ++ "\\" ++ dept.deptName
            else dept.deptName)) = _
    rw [if_neg hnotroot, hparent]
    show some (if parentPath ≠ "" then parentPath ++ "\\" ++ dept.deptName
      else dept.deptName) = _
    rw [if_pos hne]
  · rw [buildDeptPathFuel_succ, if_pos rfl]

/-- Witness for C6 at the concrete chain table: the join clause at id `2`
and the unknown-id clause at id `9`. -/
theorem c6_dept_path_cases_witness :
    buildDeptPathFuel 3 "2" chainDeptTbl = some ("Eng" ++ "\\" ++ "Backend") ∧
    buildDeptPathFuel 2 "9" chainDeptTbl = some "" := by
  have h := c6_dept_path_cases chainDeptTbl 2 "2" ⟨"2", "Backend", "1"⟩ "Eng"
  have h9 := c6_dept_path_cases chainDeptTbl 1 "9" ⟨"2", "Backend", "1"⟩ "Eng"
  exact ⟨h.2.2.2.1 (by decide) (by decide) (by decide) (by decide) (by decide),
    h9.2.1 (by decide)⟩

/-- C10: a department whose parent id is neither the root marker nor the id of
any department in the table resolves to its own bare name: the empty parent
path is dropped rather than joined, and no separator is prepended. -/
theorem c10_missing_parent (deptList : List DeptRow) (fuel : Nat) (deptId : String)
    (dept : DeptRow)
    (h0 : deptId ≠ "0")
    (hfind : deptList.find? (fun d => d.deptId == deptId) = some dept)
    (hp : dept.parentDeptId ≠ "0")
    (hmiss : ∀ e ∈ deptList, e.deptId ≠ dept.parentDeptId) :
    buildDeptPathFuel (fuel + 2) deptId deptList = some dept.deptName ∧
    dept.deptName ≠ "\\" ++ dept.deptName := by
  constructor
  · have hfnone : deptList.find? (fun d => d.deptId == dept.parentDeptId) = none := by
      rw [List.find?_eq_none]
      intro e he
      simpa using hmiss e he
    rw [buildDeptPathFuel_succ, if_neg h0, hfind]
    show (if dept.parentDeptId = "0" then some dept.deptName
      else match buildDeptPathFuel (fuel + 1) dept.parentDeptId deptList with
        | none => none
        | some parentPath =>
          some (if parentPath ≠ "" then parentPath ++ "\\" ++ dept.deptName
            else dept.deptName)) = some dept.deptName
    rw [if_neg hp, buildDeptPathFuel_succ, if_neg hp, hfnone]
    rfl
  · intro hcontra
    have hlen := congrArg String.length hcontra
    rw [String.length_append] at hlen
    have hone : ("\\" : String).length = 1 := rfl
    omega

/-- Witness for C10: table with one node `Backend` whose parent `9` is missing. -/
theorem c10_missing_parent_witness :
    buildDeptPathFuel 2 "2" [(⟨"2", "Backend", "9"⟩ : DeptRow)] = some "Backend" :=
  (c10_missing_parent [⟨"2", "Backend", "9"⟩] 0 "2" ⟨"2", "Backend", "9"⟩ (by decide)
    (by decide) (by decide) (by decide)).1

/-- C9 counterexample: on a table whose single node is its own parent, the
recursion of `build_dept_path` finishes at no depth, so the computation does
not terminate for every table. -/
theorem c9_cyclic_no_termination : ¬ deptPathTerminates cyclicDeptTbl "1" := by
  rintro ⟨n, h⟩
  rw [buildDeptPathFuel_cyclic] at h
  simp at h

/-- C9 amended: the path computation terminates for every department id of a
table whose parent links are acyclic, witnessed by a rank function strictly
decreasing from child to parent; on a cyclic chain it does not terminate (see
the counterexample). -/
theorem c9_terminates_of_acyclic (deptList : List DeptRow) (rank : String → Nat)
    (hrank : ∀ d ∈ deptList, d.parentDeptId ≠ "0" → rank d.parentDeptId < rank d.deptId) :
    ∀ deptId, deptPathTerminates deptList deptId := by
  have key : ∀ n deptId, rank deptId < n → (buildDeptPathFuel n deptId deptList).isSome := by
    intro n
    induction n with
    | zero => intro deptId h; exact absurd h (Nat.not_lt_zero _)
    | succ n ih =>
      intro deptId h
      rw [buildDeptPathFuel_succ]
      split
      · rfl
      · split
        · rfl
        · next dept hfind =>
          split
          · rfl
          · next hp =>
            have hmem := List.mem_of_find?_eq_some hfind
            have hdid : dept.deptId = deptId := by simpa using List.find?_some hfind
            have hplt : rank dept.parentDeptId < n := by
              have hlt := hrank dept hmem hp
              rw [hdid] at hlt
              omega
            have hrec := ih dept.parentDeptId hplt
            split
            · next hnone => rw [hnone] at hrec; simp at hrec
            · rfl
  intro deptId
  exact ⟨rank deptId + 1, key (rank deptId + 1) deptId (Nat.lt_succ_self _)⟩

/-- Witness for C9 (amended): the acyclic chain table terminates at id `2`. -/
theorem c9_terminates_of_acyclic_witness : deptPathTerminates chainDeptTbl "2" :=
  c9_terminates_of_acyclic chainDeptTbl
    (fun s => if s = "2" then 2 else if s = "1" then 1 else 0) (by decide) "2"

/-! ### Snapshot integrity gate (C5) -/

lemma dictInsert_of_not_mem {α : Type} (m : List (String × α)) (k : String) (v : α)
    (h : k ∉ m.map Prod.fst) : dictInsert m k v = m ++ [(k, v)] := by
  rw [dictInsert, if_neg]
  simp only [List.any_eq_true, beq_iff_eq, not_exists, not_and]
  intro p hp hpk
  exact h (hpk ▸ List.mem_map_of_mem Prod.fst hp)

lemma mem_dictInsert {α : Type} (m : List (String × α)) (k : String) (v : α) :
    ∀ p ∈ dictInsert m k v, p ∈ m ∨ p = (k, v) := by
  intro p hp
  rw [dictInsert] at hp
  split at hp
  · rcases List.mem_map.mp hp with ⟨q, hq, hqe⟩
    by_cases hqk : (q.1 == k) = true
    · rw [if_pos hqk] at hqe
      exact Or.inr hqe.symm
    · rw [if_neg hqk] at hqe
      exact Or.inl (hqe ▸ hq)
  · rcases List.mem_append.mp hp with h | h
    · exact Or.inl h
    · exact Or.inr (List.mem_singleton.mp h)

lemma buildUserDictsAux_length :
    ∀ (rows : List AdCsvRow) (eu nu : List (String × AdUserInfo)),
      (rows.map adRowKey).Nodup →
      (∀ row ∈ rows, ∀ k, adRowKey row = Sum.inl k → k ∉ eu.map Prod.fst) →
      (∀ row ∈ rows, ∀ k, adRowKey row = Sum.inr k → k ∉ nu.map Prod.fst) →
      (rows.foldl userDictStep (eu, nu)).1.length + (rows.foldl userDictStep (eu, nu)).2.length
        = eu.length + nu.length + rows.length := by
  intro rows
  induction rows with
  | nil => intro eu nu _ _ _; simp
  | cons row rest ih =>
    intro eu nu hnd h1 h2
    rw [List.map_cons, List.nodup_cons] at hnd
    show (List.foldl userDictStep (userDictStep (eu, nu) row) rest).1.length +
      (List.foldl userDictStep (userDictStep (eu, nu) row) rest).2.length = _
    by_cases hen : pyStrip row.employeeNumber ≠ ""
    · have hkey : adRowKey row = Sum.inl (pyStrip row.employeeNumber) := by
        simp only [adRowKey]; rw [if_pos hen]
      have hstep : userDictStep (eu, nu) row =
          (dictInsert eu (pyStrip row.employeeNumber)
            ⟨row.samAccountName, row.displayName, row.emailAddress⟩, nu) := by
        simp only [userDictStep]; rw [if_pos hen]
      have hnotin : pyStrip row.employeeNumber ∉ eu.map Prod.fst :=
        h1 row (List.mem_cons_self row rest) _ hkey
      have hh1 : ∀ row' ∈ rest, ∀ k, adRowKey row' = Sum.inl k →
          k ∉ (eu ++ [(pyStrip row.employeeNumber,
            (⟨row.samAccountName, row.displayName, row.emailAddress⟩ : AdUserInfo))]).map
              Prod.fst := by
        intro row' hr k hk
        simp only [List.map_append, List.map_cons, List.map_nil, List.mem_append,
          List.mem_singleton, not_or]
        refine ⟨h1 row' (List.mem_cons_of_mem row hr) k hk, ?_⟩
        intro hke
        apply hnd.1
        have heq : adRowKey row' = adRowKey row := by rw [hk, hke, hkey]
        rw [← heq]
        exact List.mem_map_of_mem adRowKey hr
      have hh2 : ∀ row' ∈ rest, ∀ k, adRowKey row' = Sum.inr k → k ∉ nu.map Prod.fst :=
        fun row' hr k hk => h2 row' (List.mem_cons_of_mem row hr) k hk
      have hIH := ih _ nu hnd.2 hh1 hh2
      rw [hstep, dictInsert_of_not_mem eu _ _ hnotin, hIH]
      simp only [List.length_append, List.length_cons, List.length_nil]
      omega
    · have hkey : adRowKey row = Sum.inr row.samAccountName := by
        simp only [adRowKey]; rw [if_neg hen]
      have hstep : userDictStep (eu, nu) row =
          (eu, dictInsert nu row.samAccountName
            ⟨row.samAccountName, row.displayName, row.emailAddress⟩) := by
        simp only [userDictStep]; rw [if_neg hen]
      have hnotin : row.samAccountName ∉ nu.map Prod.fst :=
        h2 row (List.mem_cons_self row rest) _ hkey
      have hh1 : ∀ row' ∈ rest, ∀ k, adRowKey row' = Sum.inl k → k ∉ eu.map Prod.fst :=
        fun row' hr k hk => h1 row' (List.mem_cons_of_mem row hr) k hk
      have hh2 : ∀ row' ∈ rest, ∀ k, adRowKey row' = Sum.inr k →
          k ∉ (nu ++ [(row.samAccountName,
            (⟨row.samAccountName, row.displayName, row.emailAddress⟩ : AdUserInfo))]).map
              Prod.fst := by
        intro row' hr k hk
        simp only [List.map_append, List.map_cons, List.map_nil, List.mem_append,
          List.mem_singleton, not_or]
        refine ⟨h2 row' (List.mem_cons_of_mem row hr) k hk, ?_⟩
        intro hke
        apply hnd.1
        have heq : adRowKey row' = adRowKey row := by rw [hk, hke, hkey]
        rw [← heq]
        exact List.mem_map_of_mem adRowKey hr
      have hIH := ih eu _ hnd.2 hh1 hh2
      rw [hstep, dictInsert_of_not_mem nu _ _ hnotin, hIH]
      simp only [List.length_append, List.length_cons, List.length_nil]
      omega

lemma buildUserDicts_length (rows : List AdCsvRow) (hnd : (rows.map adRowKey).Nodup) :
    (buildUserDicts rows).1.length + (buildUserDicts rows).2.length = rows.length := by
  have h := buildUserDictsAux_length rows [] [] hnd (by simp) (by simp)
  simpa [buildUserDicts] using h

/-- C5: when the export downloads, the run proceeds iff the independently
queried live count equals the number of records parsed from the export, and a
mismatch is fatal before any plan is computed; when the export cannot be
downloaded, the run proceeds iff the live count is zero, and then the plan is
computed from an empty snapshot. The distinct-key hypothesis reflects that
`SamAccountName` and the Union ID are unique keys in the directory. -/
theorem c5_integrity_gate (rows : List AdCsvRow) (liveCount : Nat)
    (pinyinExceptions deptPathMap : List (String × String)) (roster : List FeishuUser)
    (hkeys : (rows.map adRowKey).Nodup) :
    ((runUserSyncPlan true rows liveCount pinyinExceptions deptPathMap roster).isOk ↔
      liveCount = rows.length) ∧
    (liveCount ≠ rows.length →
      runUserSyncPlan true rows liveCount pinyinExceptions deptPathMap roster =
        Except.error ()) ∧
    ((runUserSyncPlan false rows liveCount pinyinExceptions deptPathMap roster).isOk ↔
      liveCount = 0) ∧
    runUserSyncPlan false rows 0 pinyinExceptions deptPathMap roster =
      Except.ok (splitUsersForSync pinyinExceptions deptPathMap roster [] []) := by
  have hlen := buildUserDicts_length rows hkeys
  have hok : getExistingAdUsers true rows liveCount =
      if liveCount = rows.length then Except.ok (buildUserDicts rows) else Except.error () := by
    show (if liveCount = (buildUserDicts rows).1.length + (buildUserDicts rows).2.length
      then Except.ok (buildUserDicts rows) else Except.error ()) = _
    rw [hlen]
  have hko : getExistingAdUsers false rows liveCount =
      if liveCount = 0 then Except.ok ([], []) else Except.error () := by
    rw [getExistingAdUsers]; rfl
  refine ⟨?_, ?_, ?_, ?_⟩
  · rw [runUserSyncPlan, hok]
    by_cases h : liveCount = rows.length
    · rw [if_pos h]
      simp [h, Except.isOk, Except.toBool]
    · rw [if_neg h]
      simp [h, Except.isOk, Except.toBool]
  · intro h
    rw [runUserSyncPlan, hok, if_neg h]
  · rw [runUserSyncPlan, hko]
    by_cases h : liveCount = 0
    · rw [if_pos h]
      simp [h, Except.isOk, Except.toBool]
    · rw [if_neg h]
      simp [h, Except.isOk, Except.toBool]
  · rw [runUserSyncPlan, getExistingAdUsers]
    rfl

/-- Witness for C5: two rows (one with a Union ID, one without), live count
matching on download success, live count zero on download failure. -/
theorem c5_integrity_gate_witness :
    ((runUserSyncPlan true [⟨"s", "U1", "d", "e"⟩, ⟨"t", "", "d", "e"⟩] 2 [] [] []).isOk ↔
      (2 : Nat) = 2) ∧
    ((2 : Nat) ≠ 3 → True) ∧
    ((runUserSyncPlan false [⟨"s", "U1", "d", "e"⟩, ⟨"t", "", "d", "e"⟩] 5 [] [] []).isOk ↔
      (5 : Nat) = 0) := by
  have h := c5_integrity_gate [⟨"s", "U1", "d", "e"⟩, ⟨"t", "", "d", "e"⟩] 2 [] [] []
    (by decide)
  have h5 := c5_integrity_gate [⟨"s", "U1", "d", "e"⟩, ⟨"t", "", "d", "e"⟩] 5 [] [] []
    (by decide)
  exact ⟨h.1, fun _ => trivial, h5.2.2.1⟩

/-! ### OU diff (C8) -/

lemma existingOuDictAux_eq (baseOu excludeOu : String) :
    ∀ (rows : List OuRow) (acc : List (String × String)),
      (rows.map OuRow.dn).Nodup →
      (∀ r ∈ rows, ouExcluded baseOu excludeOu r = false → r.dn ∉ acc.map Prod.fst) →
      rows.foldl
        (fun m row => if ouExcluded baseOu excludeOu row then m
          else dictInsert m row.dn row.name) acc
      = acc ++ (rows.filter (fun r => !ouExcluded baseOu excludeOu r)).map
          (fun r => (r.dn, r.name)) := by
  intro rows
  induction rows with
  | nil => intro acc _ _; simp
  | cons row rest ih =>
    intro acc hnd hacc
    rw [List.map_cons, List.nodup_cons] at hnd
    show List.foldl _ (if ouExcluded baseOu excludeOu row then acc
      else dictInsert acc row.dn row.name) rest = _
    by_cases hexc : ouExcluded baseOu excludeOu row = true
    · rw [if_pos hexc]
      rw [ih acc hnd.2 (fun r hr h => hacc r (List.mem_cons_of_mem row hr) h)]
      rw [List.filter_cons]
      simp [hexc]
    · rw [if_neg hexc]
      rw [Bool.not_eq_true] at hexc
      have hnotin : row.dn ∉ acc.map Prod.fst := hacc row (List.mem_cons_self row rest) hexc
      rw [dictInsert_of_not_mem acc _ _ hnotin]
      rw [ih (acc ++ [(row.dn, row.name)]) hnd.2 ?_]
      · rw [List.filter_cons]
        simp [hexc]
      · intro r hr h
        simp only [List.map_append, List.map_cons, List.map_nil, List.mem_append,
          List.mem_singleton, not_or]
        refine ⟨hacc r (List.mem_cons_of_mem row hr) h, ?_⟩
        intro hdn
        exact hnd.1 (hdn ▸ List.mem_map_of_mem OuRow.dn hr)

lemma existingOuDict_eq (rows : List OuRow) (baseOu excludeOu : String)
    (hnd : (rows.map OuRow.dn).Nodup) :
    existingOuDict rows baseOu excludeOu =
      (rows.filter (fun r => !ouExcluded baseOu excludeOu r)).map (fun r => (r.dn, r.name)) := by
  have h := existingOuDictAux_eq baseOu excludeOu rows [] hnd (by simp)
  simpa [existingOuDict] using h

/-- C8: the OU diff is the set difference on display names — a name is listed
as extra exactly when some existing OU row survives the scoping filter (base
OU, excluded OU and everything nested under it are dropped) with that name
and the name is not a source department name; in particular target OUs
`{Sales, Eng, Legacy}` against source departments `{Sales, Eng}` yield
exactly `{Legacy}`. -/
theorem c8_ou_diff (rows : List OuRow) (baseOu excludeOu : String) (srcNames : List String)
    (hnd : (rows.map OuRow.dn).Nodup) :
    (∀ n, n ∈ extraOus rows baseOu excludeOu srcNames ↔
      ((∃ row ∈ rows, ouExcluded baseOu excludeOu row = false ∧ row.name = n) ∧
        n ∉ srcNames)) ∧
    extraOus [⟨"Sales", "OU=Sales,DC=x"⟩, ⟨"Eng", "OU=Eng,DC=x"⟩, ⟨"Legacy", "OU=Legacy,DC=x"⟩]
      "OU=Base,DC=x" "" ["Sales", "Eng"] = ["Legacy"] := by
  constructor
  · intro n
    rw [extraOus, existingOuDict_eq rows baseOu excludeOu hnd]
    rw [List.mem_filter, List.mem_dedup, List.map_map]
    simp only [List.mem_map, List.mem_filter, Function.comp, Bool.not_eq_true',
      decide_eq_true_eq]
    constructor
    · rintro ⟨⟨row, ⟨hrow, hkeep⟩, hname⟩, hnot⟩
      exact ⟨⟨row, hrow, hkeep, hname⟩, hnot⟩
    · rintro ⟨⟨row, hrow, hkeep, hname⟩, hnot⟩
      exact ⟨⟨row, ⟨hrow, hkeep⟩, hname⟩, hnot⟩
  · decide

/-- Witness for C8: `Legacy` is extra, `Sales` is not. -/
theorem c8_ou_diff_witness :
    "Legacy" ∈ extraOus
      [⟨"Sales", "OU=Sales,DC=x"⟩, ⟨"Eng", "OU=Eng,DC=x"⟩, ⟨"Legacy", "OU=Legacy,DC=x"⟩]
      "OU=Base,DC=x" "" ["Sales", "Eng"] ∧
    "Sales" ∉ extraOus
      [⟨"Sales", "OU=Sales,DC=x"⟩, ⟨"Eng", "OU=Eng,DC=x"⟩, ⟨"Legacy", "OU=Legacy,DC=x"⟩]
      "OU=Base,DC=x" "" ["Sales", "Eng"] := by
  have h := c8_ou_diff
    [⟨"Sales", "OU=Sales,DC=x"⟩, ⟨"Eng", "OU=Eng,DC=x"⟩, ⟨"Legacy", "OU=Legacy,DC=x"⟩]
    "OU=Base,DC=x" "" ["Sales", "Eng"] (by decide)
  constructor
  · exact (h.1 "Legacy").mpr (by decide)
  · intro hmem
    have := (h.1 "Sales").mp hmem
    revert this
    decide

/-! ### The split loop (C3, C4, C7) -/

lemma lookup_mem {α : Type} {l : List (String × α)} {k : String} {v : α}
    (h : List.lookup k l = some v) : (k, v) ∈ l := by
  induction l with
  | nil => simp at h
  | cons p rest ih =>
    rw [List.lookup_cons] at h
    cases hk : (k == p.1) with
    | true =>
      rw [hk] at h
      have h2 : some p.2 = some v := h
      have hkp : k = p.1 := by simpa using hk
      have hv : p.2 = v := by injection h2
      rw [List.mem_cons]
      left
      cases p
      simp_all
    | false =>
      rw [hk] at h
      have h2 : List.lookup k rest = some v := h
      exact List.mem_cons_of_mem p (ih h2)

lemma splitUsersAux_newUsers (exc : List (String × String)) (roster : List FeishuUser)
    (dpm : List (String × String)) (eu nu : List (String × AdUserInfo)) :
    ∀ rows, (splitUsersAux exc roster dpm eu nu rows).newUsers =
      rows.filterMap (fun row =>
        match rowMatch eu nu row.unionId (assignSam exc roster row) with
        | some _ => none
        | none =>
          some (mkNewEntry row (assignSam exc roster row) (rowDeptPath dpm row.deptId))) := by
  intro rows
  induction rows with
  | nil => rfl
  | cons row rest ih =>
    cases hm : rowMatch eu nu row.unionId (assignSam exc roster row) with
    | none =>
      simp only [splitUsersAux, hm, List.filterMap_cons]
      rw [ih]
    | some m =>
      obtain ⟨msam, viaUid⟩ := m
      simp only [splitUsersAux, hm, List.filterMap_cons]
      rw [ih]

lemma splitUsersAux_updateUsers (exc : List (String × String)) (roster : List FeishuUser)
    (dpm : List (String × String)) (eu nu : List (String × AdUserInfo)) :
    ∀ rows, (splitUsersAux exc roster dpm eu nu rows).updateUsers =
      rows.filterMap (fun row =>
        match rowMatch eu nu row.unionId (assignSam exc roster row) with
        | some m => some (mkUpdateEntry row m.1 (rowDeptPath dpm row.deptId))
        | none => none) := by
  intro rows
  induction rows with
  | nil => rfl
  | cons row rest ih =>
    cases hm : rowMatch eu nu row.unionId (assignSam exc roster row) with
    | none =>
      simp only [splitUsersAux, hm, List.filterMap_cons]
      rw [ih]
    | some m =>
      obtain ⟨msam, viaUid⟩ := m
      simp only [splitUsersAux, hm, List.filterMap_cons]
      rw [ih]

lemma splitUsersAux_matchedAdUsers (exc : List (String × String)) (roster : List FeishuUser)
    (dpm : List (String × String)) (eu nu : List (String × AdUserInfo)) :
    ∀ rows, (splitUsersAux exc roster dpm eu nu rows).matchedAdUsers =
      rows.filterMap (fun row =>
        match rowMatch eu nu row.unionId (assignSam exc roster row) with
        | some (_, true) => some row.unionId
        | _ => none) := by
  intro rows
  induction rows with
  | nil => rfl
  | cons row rest ih =>
    cases hm : rowMatch eu nu row.unionId (assignSam exc roster row) with
    | none =>
      simp only [splitUsersAux, hm, List.filterMap_cons]
      rw [ih]
    | some m =>
      obtain ⟨msam, viaUid⟩ := m
      cases viaUid with
      | true =>
        simp [splitUsersAux, hm, ih]
      | false =>
        simp [splitUsersAux, hm, ih]

lemma splitUsersAux_matchedNoUid (exc : List (String × String)) (roster : List FeishuUser)
    (dpm : List (String × String)) (eu nu : List (String × AdUserInfo)) :
    ∀ rows, (splitUsersAux exc roster dpm eu nu rows).matchedAdUsersNoUid =
      rows.filterMap (fun row =>
        match rowMatch eu nu row.unionId (assignSam exc roster row) with
        | some (msam, false) => some msam
        | _ => none) := by
  intro rows
  induction rows with
  | nil => rfl
  | cons row rest ih =>
    cases hm : rowMatch eu nu row.unionId (assignSam exc roster row) with
    | none =>
      simp only [splitUsersAux, hm, List.filterMap_cons]
      rw [ih]
    | some m =>
      obtain ⟨msam, viaUid⟩ := m
      cases viaUid with
      | true =>
        simp [splitUsersAux, hm, ih]
      | false =>
        simp [splitUsersAux, hm, ih]

lemma rowMatch_inv (eu nu : List (String × AdUserInfo)) (unionId sam msam : String)
    (viaUid : Bool) (h : rowMatch eu nu unionId sam = some (msam, viaUid)) :
    (viaUid = true ∧ unionId ≠ "" ∧
      ∃ adInfo, List.lookup unionId eu = some adInfo ∧ msam = adInfo.samAccountName) ∨
    (viaUid = false ∧ msam = sam ∧ (List.lookup sam nu).isSome) := by
  rw [rowMatch] at h
  by_cases h0 : unionId ≠ ""
  · rw [if_pos h0] at h
    cases hl : List.lookup unionId eu with
    | some adInfo =>
      rw [hl] at h
      have h2 : some (adInfo.samAccountName, true) = some (msam, viaUid) := h
      obtain ⟨hmsam, hvia⟩ := Prod.ext_iff.mp (Option.some.inj h2)
      exact Or.inl ⟨hvia.symm, h0, adInfo, rfl, hmsam.symm⟩
    | none =>
      rw [hl] at h
      cases hn : List.lookup sam nu with
      | some v =>
        rw [hn] at h
        have h2 : some (sam, false) = some (msam, viaUid) := h
        obtain ⟨hmsam, hvia⟩ := Prod.ext_iff.mp (Option.some.inj h2)
        exact Or.inr ⟨hvia.symm, hmsam.symm, by simp [hn]⟩
      | none =>
        rw [hn] at h
        exact absurd h (by simp)
  · rw [if_neg h0] at h
    cases hn : List.lookup sam nu with
    | some v =>
      rw [hn] at h
      have h2 : some (sam, false) = some (msam, viaUid) := h
      obtain ⟨hmsam, hvia⟩ := Prod.ext_iff.mp (Option.some.inj h2)
      exact Or.inr ⟨hvia.symm, hmsam.symm, by simp [hn]⟩
    | none =>
      rw [hn] at h
      exact absurd h (by simp)

/-- C3: two-tier matching — a non-empty Union ID found in the stable-id index
matches that account (regardless of login names); otherwise a freshly
assigned login name found in the no-stable-id index matches that legacy
account; otherwise the person matches nothing and lands in `to_create`. -/
theorem c3_two_tier_matching (exc dpm : List (String × String)) (roster : List FeishuUser)
    (eu nu : List (String × AdUserInfo)) (row : FeishuUser) (adInfo : AdUserInfo) :
    (row.unionId ≠ "" → List.lookup row.unionId eu = some adInfo →
      rowMatch eu nu row.unionId (assignSam exc roster row) =
        some (adInfo.samAccountName, true)) ∧
    ((row.unionId = "" ∨ List.lookup row.unionId eu = none) →
      (List.lookup (assignSam exc roster row) nu).isSome →
      rowMatch eu nu row.unionId (assignSam exc roster row) =
        some (assignSam exc roster row, false)) ∧
    ((row.unionId = "" ∨ List.lookup row.unionId eu = none) →
      List.lookup (assignSam exc roster row) nu = none →
      rowMatch eu nu row.unionId (assignSam exc roster row) = none) ∧
    (row ∈ roster →
      rowMatch eu nu row.unionId (assignSam exc roster row) = none →
      mkNewEntry row (assignSam exc roster row) (rowDeptPath dpm row.deptId) ∈
        (splitUsersForSync exc dpm roster eu nu).newUsers) := by
  refine ⟨?_, ?_, ?_, ?_⟩
  · intro h1 h2
    rw [rowMatch, if_pos h1, h2]
  · intro hcase hsome
    obtain ⟨v, hv⟩ := Option.isSome_iff_exists.mp hsome
    rcases hcase with h0 | hnone
    · rw [rowMatch, if_neg (fun hc => hc h0), hv]
    · by_cases h0 : row.unionId = ""
      · rw [rowMatch, if_neg (fun hc => hc h0), hv]
      · rw [rowMatch, if_pos h0, hnone, hv]
  · intro hcase hnone2
    rcases hcase with h0 | hnone
    · rw [rowMatch, if_neg (fun hc => hc h0), hnone2]
    · by_cases h0 : row.unionId = ""
      · rw [rowMatch, if_neg (fun hc => hc h0), hnone2]
      · rw [rowMatch, if_pos h0, hnone, hnone2]
  · intro hrow hmatch
    rw [splitUsersForSync, splitUsersAux_newUsers]
    exact List.mem_filterMap.mpr ⟨row, hrow, by rw [hmatch]⟩

/-- Witness for C3: tier-1 match despite a different login name, tier-2 match
of a legacy account, and a no-match person landing in `to_create`. -/
theorem c3_two_tier_matching_witness :
    rowMatch [("U1", ⟨"oldsam", "D", "E"⟩)] [("c.d", ⟨"c.d", "D2", "E2"⟩)] "U1"
      (assignSam []
        [⟨"a.b", "id1", "U1", "uu1", "001", "n1", "e1", ""⟩,
         ⟨"c.d", "id2", "", "uu2", "002", "n2", "e2", ""⟩,
         ⟨"zz", "id3", "", "uu3", "003", "n3", "e3", ""⟩]
        ⟨"a.b", "id1", "U1", "uu1", "001", "n1", "e1", ""⟩) =
      some ("oldsam", true) ∧
    rowMatch [("U1", ⟨"oldsam", "D", "E"⟩)] [("c.d", ⟨"c.d", "D2", "E2"⟩)] ""
      (assignSam []
        [⟨"a.b", "id1", "U1", "uu1", "001", "n1", "e1", ""⟩,
         ⟨"c.d", "id2", "", "uu2", "002", "n2", "e2", ""⟩,
         ⟨"zz", "id3", "", "uu3", "003", "n3", "e3", ""⟩]
        ⟨"c.d", "id2", "", "uu2", "002", "n2", "e2", ""⟩) =
      some ("c.d", false) ∧
    mkNewEntry ⟨"zz", "id3", "", "uu3", "003", "n3", "e3", ""⟩ "zz" "" ∈
      (splitUsersForSync [] []
        [⟨"a.b", "id1", "U1", "uu1", "001", "n1", "e1", ""⟩,
         ⟨"c.d", "id2", "", "uu2", "002", "n2", "e2", ""⟩,
         ⟨"zz", "id3", "", "uu3", "003", "n3", "e3", ""⟩]
        [("U1", ⟨"oldsam", "D", "E"⟩)] [("c.d", ⟨"c.d", "D2", "E2"⟩)]).newUsers := by
  refine ⟨?_, ?_, ?_⟩
  · exact (c3_two_tier_matching [] []
      [⟨"a.b", "id1", "U1", "uu1", "001", "n1", "e1", ""⟩,
       ⟨"c.d", "id2", "", "uu2", "002", "n2", "e2", ""⟩,
       ⟨"zz", "id3", "", "uu3", "003", "n3", "e3", ""⟩]
      [("U1", ⟨"oldsam", "D", "E"⟩)] [("c.d", ⟨"c.d", "D2", "E2"⟩)]
      ⟨"a.b", "id1", "U1", "uu1", "001", "n1", "e1", ""⟩ ⟨"oldsam", "D", "E"⟩).1
      (by decide) (by decide)
  · exact (c3_two_tier_matching [] []
      [⟨"a.b", "id1", "U1", "uu1", "001", "n1", "e1", ""⟩,
       ⟨"c.d", "id2", "", "uu2", "002", "n2", "e2", ""⟩,
       ⟨"zz", "id3", "", "uu3", "003", "n3", "e3", ""⟩]
      [("U1", ⟨"oldsam", "D", "E"⟩)] [("c.d", ⟨"c.d", "D2", "E2"⟩)]
      ⟨"c.d", "id2", "", "uu2", "002", "n2", "e2", ""⟩ ⟨"oldsam", "D", "E"⟩).2.1
      (Or.inl rfl) (by decide)
  · exact (c3_two_tier_matching [] []
      [⟨"a.b", "id1", "U1", "uu1", "001", "n1", "e1", ""⟩,
       ⟨"c.d", "id2", "", "uu2", "002", "n2", "e2", ""⟩,
       ⟨"zz", "id3", "", "uu3", "003", "n3", "e3", ""⟩]
      [("U1", ⟨"oldsam", "D", "E"⟩)] [("c.d", ⟨"c.d", "D2", "E2"⟩)]
      ⟨"zz", "id3", "", "uu3", "003", "n3", "e3", ""⟩ ⟨"oldsam", "D", "E"⟩).2.2.2
      (by decide) (by decide)

/-- C7: every `to_update` entry carries the matched account's existing
`SamAccountName` (for tier 2 this uses that the legacy index is keyed by the
account's own login name, which holds for the dictionaries the snapshot
reader builds) — a matched account is never renamed to the freshly assigned
login name. -/
theorem c7_update_keeps_existing_login (exc dpm : List (String × String))
    (roster : List FeishuUser) (eu nu : List (String × AdUserInfo))
    (hcons : ∀ p ∈ nu, p.2.samAccountName = p.1) :
    ∀ e ∈ (splitUsersForSync exc dpm roster eu nu).updateUsers,
      ∃ row ∈ roster, ∃ adInfo : AdUserInfo,
        ((row.unionId ≠ "" ∧ List.lookup row.unionId eu = some adInfo) ∨
          List.lookup (assignSam exc roster row) nu = some adInfo) ∧
        e.samAccountName = adInfo.samAccountName := by
  intro e he
  rw [splitUsersForSync, splitUsersAux_updateUsers] at he
  rcases List.mem_filterMap.mp he with ⟨row, hrow, hf⟩
  cases hm : rowMatch eu nu row.unionId (assignSam exc roster row) with
  | none => rw [hm] at hf; simp at hf
  | some m =>
    obtain ⟨msam, viaUid⟩ := m
    rw [hm] at hf
    have he2 : e = mkUpdateEntry row msam (rowDeptPath dpm row.deptId) :=
      (Option.some.inj hf).symm
    rcases rowMatch_inv eu nu row.unionId (assignSam exc roster row) msam viaUid hm with
      ⟨_, h0, adInfo, hl, hms⟩ | ⟨_, hmsam, hsome⟩
    · exact ⟨row, hrow, adInfo, Or.inl ⟨h0, hl⟩, by rw [he2]; exact hms⟩
    · obtain ⟨v, hv⟩ := Option.isSome_iff_exists.mp hsome
      have hvsam : v.samAccountName = assignSam exc roster row :=
        hcons (assignSam exc roster row, v) (lookup_mem hv)
      refine ⟨row, hrow, v, Or.inr hv, ?_⟩
      rw [he2]
      show msam = v.samAccountName
      rw [hmsam, hvsam]

/-- Witness for C7: the update entry of a tier-1 matched person keeps the
existing login name `oldsam`. -/
theorem c7_update_keeps_existing_login_witness :
    ∃ row ∈ [(⟨"a.b", "id1", "U1", "uu1", "001", "n1", "e1", ""⟩ : FeishuUser)],
      ∃ adInfo : AdUserInfo,
        ((row.unionId ≠ "" ∧
            List.lookup row.unionId [("U1", (⟨"oldsam", "D", "E"⟩ : AdUserInfo))] =
              some adInfo) ∨
          List.lookup (assignSam []
              [(⟨"a.b", "id1", "U1", "uu1", "001", "n1", "e1", ""⟩ : FeishuUser)] row)
            ([] : List (String × AdUserInfo)) = some adInfo) ∧
        (⟨"oldsam", "n1", "e1", "001", "U1", "uu1", ""⟩ : PlanEntry).samAccountName =
          adInfo.samAccountName :=
  c7_update_keeps_existing_login [] []
    [⟨"a.b", "id1", "U1", "uu1", "001", "n1", "e1", ""⟩]
    [("U1", ⟨"oldsam", "D", "E"⟩)] [] (by decide)
    ⟨"oldsam", "n1", "e1", "001", "U1", "uu1", ""⟩ (by decide)

/-! ### Plan invariants (C4) -/

lemma nodup_filterMap_on {α β : Type} (l : List α) (f : α → Option β)
    (hinj : ∀ a ∈ l, ∀ b ∈ l, ∀ c, f a = some c → f b = some c → a = b)
    (hl : l.Nodup) : (l.filterMap f).Nodup := by
  induction l with
  | nil => simp
  | cons a rest ih =>
    rw [List.nodup_cons] at hl
    rw [List.filterMap_cons]
    cases hfa : f a with
    | none =>
      exact ih (fun x hx y hy c h1 h2 =>
        hinj x (List.mem_cons_of_mem a hx) y (List.mem_cons_of_mem a hy) c h1 h2) hl.2
    | some c =>
      rw [List.nodup_cons]
      constructor
      · intro hc
        rcases List.mem_filterMap.mp hc with ⟨b, hb, hfb⟩
        have hab : a = b := hinj a (List.mem_cons_self a rest) b (List.mem_cons_of_mem a hb)
          c hfa hfb
        exact hl.1 (hab ▸ hb)
      · exact ih (fun x hx y hy c h1 h2 =>
          hinj x (List.mem_cons_of_mem a hx) y (List.mem_cons_of_mem a hy) c h1 h2) hl.2

lemma filterMap_complement_length {α β γ : Type} (f : α → Option β) (g : α → Option γ)
    (h : ∀ a, (f a).isSome = !(g a).isSome) :
    ∀ l : List α, (l.filterMap f).length + (l.filterMap g).length = l.length := by
  intro l
  induction l with
  | nil => simp
  | cons a rest ih =>
    have ha := h a
    rw [List.filterMap_cons, List.filterMap_cons]
    cases hfa : f a with
    | none =>
      rw [hfa] at ha
      cases hga : g a with
      | none => rw [hga] at ha; simp at ha
      | some c => simp only [List.length_cons]; omega
    | some b =>
      rw [hfa] at ha
      cases hga : g a with
      | none => simp only [List.length_cons]; omega
      | some c => rw [hga] at ha; simp at ha

lemma filterMap_length_congr {α β γ : Type} (f : α → Option β) (g : α → Option γ)
    (h : ∀ a, (f a).isSome = (g a).isSome) :
    ∀ l : List α, (l.filterMap f).length = (l.filterMap g).length := by
  intro l
  induction l with
  | nil => rfl
  | cons a rest ih =>
    have ha := h a
    rw [List.filterMap_cons, List.filterMap_cons]
    cases hfa : f a with
    | none =>
      rw [hfa] at ha
      cases hga : g a with
      | none => exact ih
      | some c => rw [hga] at ha; simp at ha
    | some b =>
      rw [hfa] at ha
      cases hga : g a with
      | none => rw [hga] at ha; simp at ha
      | some c => simp only [List.length_cons]; omega

lemma unmatched_iff (eu nu : List (String × AdUserInfo)) (m1 m2 : List String)
    (hsam : ((eu ++ nu).map (fun p => p.2.samAccountName)).Nodup) :
    (∀ p ∈ eu, (p.2 ∈ unmatchedAdUsers eu nu m1 m2 ↔ p.1 ∉ m1)) ∧
    (∀ p ∈ nu, (p.2 ∈ unmatchedAdUsers eu nu m1 m2 ↔ p.1 ∉ m2)) ∧
    (∀ info ∈ unmatchedAdUsers eu nu m1 m2,
      (∃ p ∈ eu, p.2 = info ∧ p.1 ∉ m1) ∨ (∃ p ∈ nu, p.2 = info ∧ p.1 ∉ m2)) := by
  have hinj := List.inj_on_of_nodup_map hsam
  have hdisj : ∀ p ∈ eu, p ∉ nu := by
    intro p hpe hpn
    rw [List.map_append, List.nodup_append] at hsam
    exact hsam.2.2 (List.mem_map_of_mem _ hpe) (List.mem_map_of_mem _ hpn)
  have hdecomp : ∀ info ∈ unmatchedAdUsers eu nu m1 m2,
      (∃ p ∈ eu, p.2 = info ∧ p.1 ∉ m1) ∨ (∃ p ∈ nu, p.2 = info ∧ p.1 ∉ m2) := by
    intro info hmem
    rcases List.mem_append.mp hmem with h | h
    · rcases List.mem_filterMap.mp h with ⟨q, hq, hqf⟩
      by_cases hqm : q.1 ∈ m1
      · rw [if_pos hqm] at hqf; exact absurd hqf (by simp)
      · rw [if_neg hqm] at hqf
        exact Or.inl ⟨q, hq, Option.some.inj hqf, hqm⟩
    · rcases List.mem_filterMap.mp h with ⟨q, hq, hqf⟩
      by_cases hqm : q.1 ∈ m2
      · rw [if_pos hqm] at hqf; exact absurd hqf (by simp)
      · rw [if_neg hqm] at hqf
        exact Or.inr ⟨q, hq, Option.some.inj hqf, hqm⟩
  refine ⟨?_, ?_, hdecomp⟩
  · intro p hp
    constructor
    · intro hmem
      rcases hdecomp p.2 hmem with ⟨q, hq, hq2, hqm⟩ | ⟨q, hq, hq2, hqm⟩
      · have : q = p := hinj (List.mem_append_left nu hq) (List.mem_append_left nu hp)
          (by rw [hq2])
        exact this ▸ hqm
      · have : q = p := hinj (List.mem_append_right eu hq) (List.mem_append_left nu hp)
          (by rw [hq2])
        exact absurd hq (this ▸ fun hc => hdisj p hp hc)
    · intro hnotin
      apply List.mem_append_left
      exact List.mem_filterMap.mpr ⟨p, hp, by rw [if_neg hnotin]⟩
  · intro p hp
    constructor
    · intro hmem
      rcases hdecomp p.2 hmem with ⟨q, hq, hq2, hqm⟩ | ⟨q, hq, hq2, hqm⟩
      · have : q = p := hinj (List.mem_append_left nu hq) (List.mem_append_right eu hp)
          (by rw [hq2])
        exact absurd hp (fun hc => hdisj q hq (this ▸ hc))
      · have : q = p := hinj (List.mem_append_right eu hq) (List.mem_append_right eu hp)
          (by rw [hq2])
        exact this ▸ hqm
    · intro hnotin
      apply List.mem_append_right
      exact List.mem_filterMap.mpr ⟨p, hp, by rw [if_neg hnotin]⟩

/-- C4 amended: each roster row lands in exactly one of `to_create`/`to_update`
(their lengths sum to the roster length); under uniqueness of non-empty
stable ids, injectivity of the login assignment on the roster, and distinct
account login names, the claimed-account keys are pairwise distinct with one
`to_update` entry per claimed account; and the unmatched export contains
exactly the snapshot accounts whose key was claimed by no roster row. Without
those hypotheses one account can be claimed by two persons (see the
counterexample). -/
theorem c4_plan_invariants (exc dpm : List (String × String)) (roster : List FeishuUser)
    (eu nu : List (String × AdUserInfo))
    (hnd : roster.Nodup)
    (hu : ∀ r1 ∈ roster, ∀ r2 ∈ roster, r1.unionId ≠ "" → r1.unionId = r2.unionId → r1 = r2)
    (hs : ∀ r1 ∈ roster, ∀ r2 ∈ roster,
      assignSam exc roster r1 = assignSam exc roster r2 → r1 = r2)
    (hsam : ((eu ++ nu).map (fun p => p.2.samAccountName)).Nodup) :
    (splitUsersForSync exc dpm roster eu nu).newUsers.length +
      (splitUsersForSync exc dpm roster eu nu).updateUsers.length = roster.length ∧
    (claimedKeys exc roster eu nu).Nodup ∧
    (splitUsersForSync exc dpm roster eu nu).updateUsers.length =
      (claimedKeys exc roster eu nu).length ∧
    (∀ p ∈ eu,
      (p.2 ∈ unmatchedAdUsers eu nu (splitUsersForSync exc dpm roster eu nu).matchedAdUsers
          (splitUsersForSync exc dpm roster eu nu).matchedAdUsersNoUid ↔
        p.1 ∉ (splitUsersForSync exc dpm roster eu nu).matchedAdUsers)) ∧
    (∀ p ∈ nu,
      (p.2 ∈ unmatchedAdUsers eu nu (splitUsersForSync exc dpm roster eu nu).matchedAdUsers
          (splitUsersForSync exc dpm roster eu nu).matchedAdUsersNoUid ↔
        p.1 ∉ (splitUsersForSync exc dpm roster eu nu).matchedAdUsersNoUid)) ∧
    (∀ info ∈ unmatchedAdUsers eu nu (splitUsersForSync exc dpm roster eu nu).matchedAdUsers
        (splitUsersForSync exc dpm roster eu nu).matchedAdUsersNoUid,
      (∃ p ∈ eu, p.2 = info ∧
        p.1 ∉ (splitUsersForSync exc dpm roster eu nu).matchedAdUsers) ∨
      (∃ p ∈ nu, p.2 = info ∧
        p.1 ∉ (splitUsersForSync exc dpm roster eu nu).matchedAdUsersNoUid)) := by
  have hun := unmatched_iff eu nu (splitUsersForSync exc dpm roster eu nu).matchedAdUsers
    (splitUsersForSync exc dpm roster eu nu).matchedAdUsersNoUid hsam
  refine ⟨?_, ?_, ?_, hun.1, hun.2.1, hun.2.2⟩
  · rw [splitUsersForSync, splitUsersAux_newUsers, splitUsersAux_updateUsers]
    apply filterMap_complement_length
    intro a
    cases hm : rowMatch eu nu a.unionId (assignSam exc roster a) with
    | none => simp [hm]
    | some m => simp [hm]
  · rw [claimedKeys]
    apply nodup_filterMap_on roster _ ?_ hnd
    intro a ha b hb c hfa hfb
    rcases Option.map_eq_some'.mp hfa with ⟨ma, hma, hca⟩
    rcases Option.map_eq_some'.mp hfb with ⟨mb, hmb, hcb⟩
    obtain ⟨msa, via_a⟩ := ma
    obtain ⟨msb, via_b⟩ := mb
    rcases rowMatch_inv _ _ _ _ _ _ hma with ⟨hva, h0a, infoA, hla, hmsa⟩ | ⟨hva, hmsa, hna⟩ <;>
      rcases rowMatch_inv _ _ _ _ _ _ hmb with ⟨hvb, h0b, infoB, hlb, hmsb⟩ |
        ⟨hvb, hmsb, hnb⟩
    · subst hva hvb
      simp only [if_pos rfl] at hca hcb
      rw [← hcb] at hca
      have huid : a.unionId = b.unionId := (Prod.ext_iff.mp hca).2
      exact hu a ha b hb h0a huid
    · subst hva hvb
      rw [← hcb] at hca
      exact absurd (Prod.ext_iff.mp hca).1 (by simp)
    · subst hva hvb
      rw [← hcb] at hca
      exact absurd (Prod.ext_iff.mp hca).1 (by simp)
    · subst hva hvb
      simp only [Bool.false_eq_true, if_neg] at hca hcb
      rw [← hcb] at hca
      have hms : msa = msb := by simpa using (Prod.ext_iff.mp hca).2
      apply hs a ha b hb
      rw [← hmsa, ← hmsb, hms]
  · rw [splitUsersForSync, splitUsersAux_updateUsers, claimedKeys]
    apply filterMap_length_congr
    intro a
    cases hm : rowMatch eu nu a.unionId (assignSam exc roster a) with
    | none => simp [hm]
    | some m => simp [hm]

/-- C4 counterexample: two distinct persons (no stable id, same base token)
whose shared token is overridden to `x` both claim the single legacy account
`x`: the account is claimed twice and appears in two `to_update` entries,
refuting the claim that every claimed account appears in exactly one entry. -/
theorem c4_double_claim_counterexample :
    ((splitUsersForSync [("a.b", "x")] []
      [⟨"a.b", "id1", "", "uu1", "001", "n1", "e1", ""⟩,
       ⟨"a.b", "id2", "", "uu2", "002", "n2", "e2", ""⟩]
      [] [("x", ⟨"x", "Old", "o@e"⟩)]).updateUsers.map
        (fun e => e.samAccountName)) = ["x", "x"] ∧
    claimedKeys [("a.b", "x")]
      [⟨"a.b", "id1", "", "uu1", "001", "n1", "e1", ""⟩,
       ⟨"a.b", "id2", "", "uu2", "002", "n2", "e2", ""⟩]
      [] [("x", ⟨"x", "Old", "o@e"⟩)] = [(false, "x"), (false, "x")] ∧
    ¬ (claimedKeys [("a.b", "x")]
      [⟨"a.b", "id1", "", "uu1", "001", "n1", "e1", ""⟩,
       ⟨"a.b", "id2", "", "uu2", "002", "n2", "e2", ""⟩]
      [] [("x", ⟨"x", "Old", "o@e"⟩)]).Nodup := by
  refine ⟨by decide, by decide, by decide⟩

/-- Witness for C4 at a roster with a tier-1 match, a tier-2 match and an
unmatched person against a snapshot with one unclaimed stable-id account. -/
theorem c4_plan_invariants_witness :
    (splitUsersForSync [] []
      [⟨"a.b", "id1", "U1", "uu1", "001", "n1", "e1", ""⟩,
       ⟨"c.d", "id2", "", "uu2", "002", "n2", "e2", ""⟩,
       ⟨"zz", "id3", "", "uu3", "003", "n3", "e3", ""⟩]
      [("U1", ⟨"oldsam", "D", "E"⟩), ("U9", ⟨"ghost", "G", "H"⟩)]
      [("c.d", ⟨"c.d", "D2", "E2"⟩)]).newUsers.length +
    (splitUsersForSync [] []
      [⟨"a.b", "id1", "U1", "uu1", "001", "n1", "e1", ""⟩,
       ⟨"c.d", "id2", "", "uu2", "002", "n2", "e2", ""⟩,
       ⟨"zz", "id3", "", "uu3", "003", "n3", "e3", ""⟩]
      [("U1", ⟨"oldsam", "D", "E"⟩), ("U9", ⟨"ghost", "G", "H"⟩)]
      [("c.d", ⟨"c.d", "D2", "E2"⟩)]).updateUsers.length =
      [⟨"a.b", "id1", "U1", "uu1", "001", "n1", "e1", ""⟩,
       ⟨"c.d", "id2", "", "uu2", "002", "n2", "e2", ""⟩,
       (⟨"zz", "id3", "", "uu3", "003", "n3", "e3", ""⟩ : FeishuUser)].length ∧
    (claimedKeys []
      [⟨"a.b", "id1", "U1", "uu1", "001", "n1", "e1", ""⟩,
       ⟨"c.d", "id2", "", "uu2", "002", "n2", "e2", ""⟩,
       ⟨"zz", "id3", "", "uu3", "003", "n3", "e3", ""⟩]
      [("U1", ⟨"oldsam", "D", "E"⟩), ("U9", ⟨"ghost", "G", "H"⟩)]
      [("c.d", ⟨"c.d", "D2", "E2"⟩)]).Nodup ∧
    ((⟨"ghost", "G", "H"⟩ : AdUserInfo) ∈ unmatchedAdUsers
        [("U1", ⟨"oldsam", "D", "E"⟩), ("U9", ⟨"ghost", "G", "H"⟩)]
        [("c.d", ⟨"c.d", "D2", "E2"⟩)]
        (splitUsersForSync [] []
          [⟨"a.b", "id1", "U1", "uu1", "001", "n1", "e1", ""⟩,
           ⟨"c.d", "id2", "", "uu2", "002", "n2", "e2", ""⟩,
           ⟨"zz", "id3", "", "uu3", "003", "n3", "e3", ""⟩]
          [("U1", ⟨"oldsam", "D", "E"⟩), ("U9", ⟨"ghost", "G", "H"⟩)]
          [("c.d", ⟨"c.d", "D2", "E2"⟩)]).matchedAdUsers
        (splitUsersForSync [] []
          [⟨"a.b", "id1", "U1", "uu1", "001", "n1", "e1", ""⟩,
           ⟨"c.d", "id2", "", "uu2", "002", "n2", "e2", ""⟩,
           ⟨"zz", "id3", "", "uu3", "003", "n3", "e3", ""⟩]
          [("U1", ⟨"oldsam", "D", "E"⟩), ("U9", ⟨"ghost", "G", "H"⟩)]
          [("c.d", ⟨"c.d", "D2", "E2"⟩)]).matchedAdUsersNoUid) := by
  have h := c4_plan_invariants [] []
    [⟨"a.b", "id1", "U1", "uu1", "001", "n1", "e1", ""⟩,
     ⟨"c.d", "id2", "", "uu2", "002", "n2", "e2", ""⟩,
     ⟨"zz", "id3", "", "uu3", "003", "n3", "e3", ""⟩]
    [("U1", ⟨"oldsam", "D", "E"⟩), ("U9", ⟨"ghost", "G", "H"⟩)]
    [("c.d", ⟨"c.d", "D2", "E2"⟩)]
    (by decide) (by decide) (by decide) (by decide)
  refine ⟨h.1, h.2.1, ?_⟩
  exact (h.2.2.2.1 ("U9", ⟨"ghost", "G", "H"⟩) (by decide)).mpr (by decide)

/-! ### Collision-resolving login assignment (C1, C2) -/

lemma findIdx_map_nodup {α β : Type} [DecidableEq β] (f : α → β) :
    ∀ (l : List α) (i : Nat) (hi : i < l.length), (l.map f).Nodup →
      l.findIdx (fun v => f v == f (l.get ⟨i, hi⟩)) = i := by
  intro l
  induction l with
  | nil => intro i hi; simp at hi
  | cons a rest ih =>
    intro i hi hnd
    rw [List.map_cons, List.nodup_cons] at hnd
    cases i with
    | zero =>
      rw [List.findIdx_cons]
      simp
    | succ i =>
      have hi2 : i < rest.length := by simpa using hi
      have hget : (a :: rest).get ⟨i + 1, hi⟩ = rest.get ⟨i, hi2⟩ := rfl
      rw [List.findIdx_cons, hget]
      have hne : (f a == f (rest.get ⟨i, hi2⟩)) = false := by
        rw [beq_eq_false_iff_ne]
        intro hcontra
        exact hnd.1 (hcontra ▸ List.mem_map_of_mem f (rest.get_mem i hi2))
      rw [hne]
      show rest.findIdx (fun v => f v == f (rest.get ⟨i, hi2⟩)) + 1 = i + 1
      rw [ih i hi2 hnd.2]

/-- C1: in a base-token group of size N>1 none of whose members is overridden,
with pairwise distinct employee numbers, the sorted-ascending-by-employee-no
order (`S`, a sorted permutation of the group) assigns the bare token to the
member at position 0 and `disambName` — `{first}{i}.{last}` for a token with
exactly one separator, `{token}{i}` otherwise — to the member at position
`i > 0`. -/
theorem c1_group_rank_assignment (exc : List (String × String)) (roster : List FeishuUser)
    (p : String) (i : Nat) (S : List FeishuUser)
    (hS : S = sortByEmpNo (roster.filter (fun u => u.pinyin == p)))
    (hover : exc.lookup p = none)
    (hgt : 1 < (roster.filter (fun u => u.pinyin == p)).length)
    (hnd : ((roster.filter (fun u => u.pinyin == p)).map FeishuUser.employeeNo).Nodup)
    (hi : i < S.length) :
    List.Sorted empLE S ∧
    S.Perm (roster.filter (fun u => u.pinyin == p)) ∧
    assignSam exc roster (S.get ⟨i, hi⟩) = (if i = 0 then p else disambName p i) := by
  have hperm : S.Perm (roster.filter (fun u => u.pinyin == p)) := by
    rw [hS]; exact List.perm_insertionSort empLE _
  have hsorted : List.Sorted empLE S := by
    rw [hS]; exact List.sorted_insertionSort empLE _
  refine ⟨hsorted, hperm, ?_⟩
  have hndS : (S.map FeishuUser.employeeNo).Nodup :=
    ((hperm.map FeishuUser.employeeNo).nodup_iff).mpr hnd
  have humem : S.get ⟨i, hi⟩ ∈ S := S.get_mem i hi
  have hugroup := hperm.mem_iff.mp humem
  have hup : (S.get ⟨i, hi⟩).pinyin = p := by
    simpa using List.of_mem_filter hugroup
  cases S with
  | nil => simp at hi
  | cons first restS =>
    simp only [assignSam, hup, hover]
    rw [if_pos hgt, ← hS]
    rw [List.map_cons, List.nodup_cons] at hndS
    cases i with
    | zero =>
      have hfirst : (first :: restS).get ⟨0, hi⟩ = first := rfl
      rw [hfirst]
      show (if (first.employeeNo == first.employeeNo) = true then p else _) = _
      rw [if_pos (by simp), if_pos rfl]
    | succ j =>
      have hj : j < restS.length := by simpa using hi
      have hget : (first :: restS).get ⟨j + 1, hi⟩ = restS.get ⟨j, hj⟩ := rfl
      have hne : ((restS.get ⟨j, hj⟩).employeeNo == first.employeeNo) = false := by
        rw [beq_eq_false_iff_ne]
        intro hcontra
        exact hndS.1 (hcontra ▸ List.mem_map_of_mem FeishuUser.employeeNo
          (restS.get_mem j hj))
      rw [hget]
      show (if ((restS.get ⟨j, hj⟩).employeeNo == first.employeeNo) = true then p
        else match splitDot p with
          | [p0, p1] => p0 ++ toString ((first :: restS).findIdx
              (fun v => v.employeeNo == (restS.get ⟨j, hj⟩).employeeNo)) ++ "." ++ p1
          | _ => p ++ toString ((first :: restS).findIdx
              (fun v => v.employeeNo == (restS.get ⟨j, hj⟩).employeeNo))) = _
      rw [if_neg (by rw [hne]; exact Bool.false_ne_true)]
      have hidx : (first :: restS).findIdx
          (fun v => v.employeeNo == (restS.get ⟨j, hj⟩).employeeNo) = j + 1 := by
        have h := findIdx_map_nodup FeishuUser.employeeNo (first :: restS) (j + 1) hi
          (by rw [List.map_cons, List.nodup_cons]; exact hndS)
        rwa [hget] at h
      rw [hidx, if_neg (Nat.succ_ne_zero j), disambName]

/-- Witness for C1 on the spec example: roster order emp 002, 001, 003 with
shared token `a.b`; emp 001 (rank 0) gets `a.b`, emp 002 (rank 1) gets
`a1.b`, emp 003 (rank 2) gets `a2.b`. -/
theorem c1_group_rank_assignment_witness :
    assignSam []
      [⟨"a.b", "id2", "", "uu2", "002", "n2", "e2", ""⟩,
       ⟨"a.b", "id1", "", "uu1", "001", "n1", "e1", ""⟩,
       ⟨"a.b", "id3", "", "uu3", "003", "n3", "e3", ""⟩]
      ⟨"a.b", "id1", "", "uu1", "001", "n1", "e1", ""⟩ = "a.b" ∧
    assignSam []
      [⟨"a.b", "id2", "", "uu2", "002", "n2", "e2", ""⟩,
       ⟨"a.b", "id1", "", "uu1", "001", "n1", "e1", ""⟩,
       ⟨"a.b", "id3", "", "uu3", "003", "n3", "e3", ""⟩]
      ⟨"a.b", "id2", "", "uu2", "002", "n2", "e2", ""⟩ = "a1.b" ∧
    assignSam []
      [⟨"a.b", "id2", "", "uu2", "002", "n2", "e2", ""⟩,
       ⟨"a.b", "id1", "", "uu1", "001", "n1", "e1", ""⟩,
       ⟨"a.b", "id3", "", "uu3", "003", "n3", "e3", ""⟩]
      ⟨"a.b", "id3", "", "uu3", "003", "n3", "e3", ""⟩ = "a2.b" := by
  have h0 := (c1_group_rank_assignment []
    [⟨"a.b", "id2", "", "uu2", "002", "n2", "e2", ""⟩,
     ⟨"a.b", "id1", "", "uu1", "001", "n1", "e1", ""⟩,
     ⟨"a.b", "id3", "", "uu3", "003", "n3", "e3", ""⟩] "a.b" 0
    [⟨"a.b", "id1", "", "uu1", "001", "n1", "e1", ""⟩,
     ⟨"a.b", "id2", "", "uu2", "002", "n2", "e2", ""⟩,
     ⟨"a.b", "id3", "", "uu3", "003", "n3", "e3", ""⟩]
    (by decide) rfl (by decide) (by decide) (by decide)).2.2
  have h1 := (c1_group_rank_assignment []
    [⟨"a.b", "id2", "", "uu2", "002", "n2", "e2", ""⟩,
     ⟨"a.b", "id1", "", "uu1", "001", "n1", "e1", ""⟩,
     ⟨"a.b", "id3", "", "uu3", "003", "n3", "e3", ""⟩] "a.b" 1
    [⟨"a.b", "id1", "", "uu1", "001", "n1", "e1", ""⟩,
     ⟨"a.b", "id2", "", "uu2", "002", "n2", "e2", ""⟩,
     ⟨"a.b", "id3", "", "uu3", "003", "n3", "e3", ""⟩]
    (by decide) rfl (by decide) (by decide) (by decide)).2.2
  have h2 := (c1_group_rank_assignment []
    [⟨"a.b", "id2", "", "uu2", "002", "n2", "e2", ""⟩,
     ⟨"a.b", "id1", "", "uu1", "001", "n1", "e1", ""⟩,
     ⟨"a.b", "id3", "", "uu3", "003", "n3", "e3", ""⟩] "a.b" 2
    [⟨"a.b", "id1", "", "uu1", "001", "n1", "e1", ""⟩,
     ⟨"a.b", "id2", "", "uu2", "002", "n2", "e2", ""⟩,
     ⟨"a.b", "id3", "", "uu3", "003", "n3", "e3", ""⟩]
    (by decide) rfl (by decide) (by decide) (by decide)).2.2
  exact ⟨h0, h1, h2⟩

/-! ### Injectivity of the numeric disambiguator (for C2) -/

lemma toDigitsCore_acc (b : Nat) :
    ∀ (fuel n : Nat) (ds : List Char),
      Nat.toDigitsCore b fuel n ds = Nat.toDigitsCore b fuel n [] ++ ds := by
  intro fuel
  induction fuel with
  | zero => intro n ds; rfl
  | succ f ih =>
    intro n ds
    show (if n / b = 0 then Nat.digitChar (n % b) :: ds
      else Nat.toDigitsCore b f (n / b) (Nat.digitChar (n % b) :: ds)) =
      (if n / b = 0 then Nat.digitChar (n % b) :: ([] : List Char)
        else Nat.toDigitsCore b f (n / b) (Nat.digitChar (n % b) :: [])) ++ ds
    by_cases h : n / b = 0
    · rw [if_pos h, if_pos h]; rfl
    · rw [if_neg h, if_neg h, ih (n / b) (Nat.digitChar (n % b) :: ds),
        ih (n / b) (Nat.digitChar (n % b) :: []), List.append_assoc]
      rfl

lemma toDigitsCore_ne_nil (b : Nat) :
    ∀ (fuel n : Nat) (ds : List Char), 0 < fuel ∨ ds ≠ [] →
      Nat.toDigitsCore b fuel n ds ≠ [] := by
  intro fuel
  induction fuel with
  | zero =>
    intro n ds h
    rcases h with h | h
    · omega
    · exact h
  | succ f ih =>
    intro n ds _
    show (if n / b = 0 then Nat.digitChar (n % b) :: ds
      else Nat.toDigitsCore b f (n / b) (Nat.digitChar (n % b) :: ds)) ≠ []
    by_cases h : n / b = 0
    · rw [if_pos h]; exact List.cons_ne_nil _ _
    · rw [if_neg h]
      exact ih (n / b) (Nat.digitChar (n % b) :: ds) (Or.inr (List.cons_ne_nil _ _))

lemma ofDigitChars_append_singleton (l : List Char) (c : Char) :
    ofDigitChars (l ++ [c]) = 10 * ofDigitChars l + (c.toNat - 48) := by
  simp only [ofDigitChars, List.foldl_append]
  rfl

lemma ofDigitChars_toDigitsCore :
    ∀ (n fuel : Nat), n < fuel →
      ofDigitChars (Nat.toDigitsCore 10 fuel n []) = n := by
  intro n
  induction n using Nat.strong_induction_on with
  | _ n IH =>
    intro fuel hfuel
    cases fuel with
    | zero => omega
    | succ f =>
      have hd : ∀ m, m < 10 → (Nat.digitChar m).toNat - 48 = m := by decide
      by_cases h : n / 10 = 0
      · have hn10 : n < 10 := (Nat.div_eq_zero_iff (by omega)).mp h
        have hstep : Nat.toDigitsCore 10 (f + 1) n [] = [Nat.digitChar (n % 10)] := by
          show (if n / 10 = 0 then Nat.digitChar (n % 10) :: ([] : List Char)
            else Nat.toDigitsCore 10 f (n / 10) (Nat.digitChar (n % 10) :: [])) = _
          rw [if_pos h]
        rw [hstep]
        show 10 * 0 + ((Nat.digitChar (n % 10)).toNat - 48) = n
        rw [Nat.mod_eq_of_lt hn10, hd n hn10]
        omega
      · have hnpos : 0 < n := by
          rcases Nat.eq_zero_or_pos n with h0 | h0
          · subst h0; simp at h
          · exact h0
        have hn' : n / 10 < n := Nat.div_lt_self hnpos (by omega)
        have hstep : Nat.toDigitsCore 10 (f + 1) n [] =
            Nat.toDigitsCore 10 f (n / 10) [] ++ [Nat.digitChar (n % 10)] := by
          show (if n / 10 = 0 then Nat.digitChar (n % 10) :: ([] : List Char)
            else Nat.toDigitsCore 10 f (n / 10) (Nat.digitChar (n % 10) :: [])) = _
          rw [if_neg h, toDigitsCore_acc]
        rw [hstep, ofDigitChars_append_singleton]
        rw [IH (n / 10) hn' f (by omega)]
        rw [hd (n % 10) (Nat.mod_lt n (by omega))]
        exact Nat.div_add_mod n 10

lemma nat_repr_injective : Function.Injective Nat.repr := by
  intro m n h
  have hm := ofDigitChars_toDigitsCore m (m + 1) (Nat.lt_succ_self m)
  have hn := ofDigitChars_toDigitsCore n (n + 1) (Nat.lt_succ_self n)
  have hdata : Nat.toDigitsCore 10 (m + 1) m [] = Nat.toDigitsCore 10 (n + 1) n [] := by
    have h2 := congrArg String.data h
    simpa [Nat.repr, Nat.toDigits, List.asString] using h2
  rw [← hm, ← hn, hdata]

lemma nat_repr_ne_nil (n : Nat) : (Nat.repr n).data ≠ [] := by
  show (List.asString (Nat.toDigitsCore 10 (n + 1) n [])).data ≠ []
  have h := toDigitsCore_ne_nil 10 (n + 1) n [] (Or.inl (Nat.succ_pos n))
  simpa [List.asString] using h

lemma toString_nat_inj {i j : Nat} (h : (toString i : String).data = (toString j).data) :
    i = j := by
  apply nat_repr_injective
  show Nat.repr i = Nat.repr j
  have hi : (toString i : String) = Nat.repr i := rfl
  have hj : (toString j : String) = Nat.repr j := rfl
  rw [hi, hj] at h
  cases hri : Nat.repr i
  cases hrj : Nat.repr j
  rw [hri, hrj] at h
  simp at h
  rw [h]

lemma splitDotChars_ne_nil : ∀ l : List Char, splitDotChars l ≠ [] := by
  intro l
  cases l with
  | nil => simp [splitDotChars]
  | cons c rest =>
    rw [splitDotChars]
    by_cases h : c = '.'
    · rw [if_pos h]; exact List.cons_ne_nil _ _
    · rw [if_neg h]
      cases hs : splitDotChars rest with
      | nil => exact List.cons_ne_nil _ _
      | cons a t => exact List.cons_ne_nil _ _

lemma splitDotChars_singleton : ∀ (l y : List Char), splitDotChars l = [y] → l = y := by
  intro l
  induction l with
  | nil =>
    intro y h
    simpa [splitDotChars] using h.symm
  | cons c rest ih =>
    intro y h
    rw [splitDotChars] at h
    by_cases hc : c = '.'
    · rw [if_pos hc] at h
      have := (List.cons.injEq _ _ _ _).mp h
      exact absurd this.2 (splitDotChars_ne_nil rest)
    · rw [if_neg hc] at h
      cases hs : splitDotChars rest with
      | nil => exact absurd hs (splitDotChars_ne_nil rest)
      | cons a t =>
        rw [hs] at h
        have h2 := (List.cons.injEq _ _ _ _).mp h
        have ht : t = [] := h2.2
        have hy : y = c :: a := h2.1.symm
        rw [hy]
        have : rest = a := ih a (by rw [hs, ht])
        rw [this]

lemma splitDotChars_pair :
    ∀ (l x y : List Char), splitDotChars l = [x, y] → l = x ++ '.' :: y := by
  intro l
  induction l with
  | nil =>
    intro x y h
    simp [splitDotChars] at h
  | cons c rest ih =>
    intro x y h
    rw [splitDotChars] at h
    by_cases hc : c = '.'
    · rw [if_pos hc] at h
      have h2 := (List.cons.injEq _ _ _ _).mp h
      have hx : x = [] := h2.1.symm
      have hy : rest = y := splitDotChars_singleton rest y h2.2
      rw [hx, hy, hc]
      rfl
    · rw [if_neg hc] at h
      cases hs : splitDotChars rest with
      | nil => exact absurd hs (splitDotChars_ne_nil rest)
      | cons a t =>
        rw [hs] at h
        have h2 := (List.cons.injEq _ _ _ _).mp h
        have hx : x = c :: a := h2.1.symm
        have ht : t = [y] := h2.2
        have hrest : rest = a ++ '.' :: y := ih a y (by rw [hs, ht])
        rw [hx, hrest]
        rfl

lemma splitDot_pair (s p0 p1 : String) (h : splitDot s = [p0, p1]) :
    s.data = p0.data ++ '.' :: p1.data := by
  rw [splitDot] at h
  have hlen : (splitDotChars s.data).length = 2 := by
    have := congrArg List.length h
    simpa using this
  rcases hs : splitDotChars s.data with _ | ⟨l0, _ | ⟨l1, _ | ⟨l2, t⟩⟩⟩ <;>
    rw [hs] at hlen <;> simp at hlen
  rw [hs] at h
  simp only [List.map_cons, List.map_nil] at h
  have h2 := (List.cons.injEq _ _ _ _).mp h
  have h3 := (List.cons.injEq _ _ _ _).mp h2.2
  have hl0 : l0 = p0.data := by rw [← h2.1]
  have hl1 : l1 = p1.data := by rw [← h3.1]
  have := splitDotChars_pair s.data l0 l1 hs
  rw [hl0, hl1] at this
  exact this

lemma disambName_ne_bare (p : String) (k : Nat) : disambName p k ≠ p := by
  have hk : 0 < (toString k : String).data.length :=
    List.length_pos.mpr (nat_repr_ne_nil k)
  rw [disambName]
  cases hsp : splitDot p with
  | nil =>
    intro h
    have hdata := congrArg String.data h
    simp only [String.data_append] at hdata
    have hlen := congrArg List.length hdata
    simp only [List.length_append] at hlen
    omega
  | cons p0 rest0 =>
    cases rest0 with
    | nil =>
      intro h
      have hdata := congrArg String.data h
      simp only [String.data_append] at hdata
      have hlen := congrArg List.length hdata
      simp only [List.length_append] at hlen
      omega
    | cons p1 rest1 =>
      cases rest1 with
      | nil =>
        intro h
        have hsplit := splitDot_pair p p0 p1 hsp
        have hdata := congrArg String.data h
        simp only [String.data_append] at hdata
        rw [hsplit] at hdata
        have hlen := congrArg List.length hdata
        simp only [List.length_append, List.length_cons] at hlen
        have hdot : ("." : String).data.length = 1 := rfl
        omega
      | cons p2 rest2 =>
        intro h
        have hdata := congrArg String.data h
        simp only [String.data_append] at hdata
        have hlen := congrArg List.length hdata
        simp only [List.length_append] at hlen
        omega

lemma disambName_inj (p : String) {k l : Nat} (h : disambName p k = disambName p l) :
    k = l := by
  rw [disambName, disambName] at h
  apply toString_nat_inj
  cases hsp : splitDot p with
  | nil =>
    rw [hsp] at h
    have hdata := congrArg String.data h
    simp only [String.data_append] at hdata
    exact List.append_cancel_left hdata
  | cons p0 rest0 =>
    cases rest0 with
    | nil =>
      rw [hsp] at h
      have hdata := congrArg String.data h
      simp only [String.data_append] at hdata
      exact List.append_cancel_left hdata
    | cons p1 rest1 =>
      cases rest1 with
      | nil =>
        rw [hsp] at h
        have hdata := congrArg String.data h
        simp only [String.data_append, List.append_assoc] at hdata
        have h2 := List.append_cancel_left hdata
        exact List.append_cancel_right h2
      | cons p2 rest2 =>
        rw [hsp] at h
        have hdata := congrArg String.data h
        simp only [String.data_append] at hdata
        exact List.append_cancel_left hdata

/-- C2 amended: the assignment is total by construction, and two distinct
positions of one sorted non-overridden base-token group (with pairwise
distinct employee numbers) always receive distinct login names; pairwise
distinctness over the whole roster does not hold (see the counterexample: an
override on a shared token forces the same name on all group members). -/
theorem c2_group_names_distinct (exc : List (String × String)) (roster : List FeishuUser)
    (p : String) (i j : Nat) (S : List FeishuUser)
    (hS : S = sortByEmpNo (roster.filter (fun u => u.pinyin == p)))
    (hover : exc.lookup p = none)
    (hgt : 1 < (roster.filter (fun u => u.pinyin == p)).length)
    (hnd : ((roster.filter (fun u => u.pinyin == p)).map FeishuUser.employeeNo).Nodup)
    (hi : i < S.length) (hj : j < S.length) (hij : i ≠ j) :
    assignSam exc roster (S.get ⟨i, hi⟩) ≠ assignSam exc roster (S.get ⟨j, hj⟩) := by
  have hci := (c1_group_rank_assignment exc roster p i S hS hover hgt hnd hi).2.2
  have hcj := (c1_group_rank_assignment exc roster p j S hS hover hgt hnd hj).2.2
  rw [hci, hcj]
  by_cases hi0 : i = 0
  · subst hi0
    have hj0 : j ≠ 0 := fun hc => hij hc.symm
    rw [if_pos rfl, if_neg hj0]
    exact (disambName_ne_bare p j).symm
  · by_cases hj0 : j = 0
    · subst hj0
      rw [if_pos rfl, if_neg hi0]
      exact disambName_ne_bare p i
    · rw [if_neg hi0, if_neg hj0]
      intro hcontra
      exact hij (disambName_inj p hcontra)

/-- C2 counterexample: with the shared base token `a.b` present in the
override table as `x`, both (distinct) group members are assigned the same
login name `x`, so the assigned login names are not pairwise distinct on
every roster. -/
theorem c2_uniqueness_counterexample :
    assignSam [("a.b", "x")]
      [⟨"a.b", "id1", "", "uu1", "001", "n1", "e1", ""⟩,
       ⟨"a.b", "id2", "", "uu2", "002", "n2", "e2", ""⟩]
      ⟨"a.b", "id1", "", "uu1", "001", "n1", "e1", ""⟩ = "x" ∧
    assignSam [("a.b", "x")]
      [⟨"a.b", "id1", "", "uu1", "001", "n1", "e1", ""⟩,
       ⟨"a.b", "id2", "", "uu2", "002", "n2", "e2", ""⟩]
      ⟨"a.b", "id2", "", "uu2", "002", "n2", "e2", ""⟩ = "x" ∧
    (⟨"a.b", "id1", "", "uu1", "001", "n1", "e1", ""⟩ : FeishuUser) ≠
      ⟨"a.b", "id2", "", "uu2", "002", "n2", "e2", ""⟩ := by
  refine ⟨rfl, rfl, by decide⟩

/-- Witness for C2 (amended): in the `a.b` group of three, ranks 1 and 2
(emps 002 and 003) get distinct names. -/
theorem c2_group_names_distinct_witness :
    assignSam []
      [⟨"a.b", "id2", "", "uu2", "002", "n2", "e2", ""⟩,
       ⟨"a.b", "id1", "", "uu1", "001", "n1", "e1", ""⟩,
       ⟨"a.b", "id3", "", "uu3", "003", "n3", "e3", ""⟩]
      ⟨"a.b", "id2", "", "uu2", "002", "n2", "e2", ""⟩ ≠
    assignSam []
      [⟨"a.b", "id2", "", "uu2", "002", "n2", "e2", ""⟩,
       ⟨"a.b", "id1", "", "uu1", "001", "n1", "e1", ""⟩,
       ⟨"a.b", "id3", "", "uu3", "003", "n3", "e3", ""⟩]
      ⟨"a.b", "id3", "", "uu3", "003", "n3", "e3", ""⟩ :=
  c2_group_names_distinct []
    [⟨"a.b", "id2", "", "uu2", "002", "n2", "e2", ""⟩,
     ⟨"a.b", "id1", "", "uu1", "001", "n1", "e1", ""⟩,
     ⟨"a.b", "id3", "", "uu3", "003", "n3", "e3", ""⟩] "a.b" 1 2
    [⟨"a.b", "id1", "", "uu1", "001", "n1", "e1", ""⟩,
     ⟨"a.b", "id2", "", "uu2", "002", "n2", "e2", ""⟩,
     ⟨"a.b", "id3", "", "uu3", "003", "n3", "e3", ""⟩]
    (by decide) rfl (by decide) (by decide) (by decide) (by decide) (by decide)
